import Mathlib

/-!
Shallow embedding of `src/roadlocale/locale.py` (RoadLocale i18n core):
plural-category rules, message catalogs with import/export, the placeholder
interpolation engine with locale-aware number/currency formatting, and the
`Translator` lookup/fallback state machine.

Python dicts are embedded as association lists preserving insertion order
(updates in place, fresh keys appended), Python strings as Lean `String`
(worked on as `List Char`), Python ints as `Int`, and Python floats as exact
rationals `ℚ`.  Fallible Python code (statements that can raise) is embedded
in `Except String`.
-/

namespace RoadLocale

/-- Plural rule categories (`class PluralRule(str, Enum)`). -/
inductive PluralRule where
  | zero
  | one
  | two
  | few
  | many
  | other
  deriving DecidableEq, Repr

/-- A translatable message (`@dataclass Message`).  `plural_forms` is the
category-name → text dict, kept as an insertion-ordered association list. -/
structure Message where
  key : String
  value : String
  plural_forms : List (String × String) := []
  context : String := ""
  description : String := ""
  deriving DecidableEq, Repr

/-- Locale configuration (`@dataclass Locale`) with the source's defaults. -/
structure Locale where
  code : String
  language : String
  region : Option String := none
  name : String := ""
  direction : String := "ltr"
  date_format : String := "%Y-%m-%d"
  time_format : String := "%H:%M:%S"
  datetime_format : String := "%Y-%m-%d %H:%M:%S"
  decimal_separator : String := "."
  thousands_separator : String := ","
  currency_symbol : String := "$"
  currency_format : String := "{symbol}{amount}"
  deriving DecidableEq, Repr

/-- `dict.get`: first value bound to `k` in insertion order. -/
def alookup (k : String) : List (String × α) → Option α
  | [] => none
  | (k', v) :: rest => if k' = k then some v else alookup k rest

/-- `dict[k] = v`: overwrite in place if `k` is present, else append. -/
def ainsert (k : String) (v : α) (l : List (String × α)) : List (String × α) :=
  if (alookup k l).isSome then
    l.map (fun p => if p.1 = k then (k, v) else p)
  else
    l ++ [(k, v)]

namespace PluralRules

/-- `PluralRules.get_rule(language, n)` translated line for line from the
source: take `abs(n)`, then walk the fixed language decision table.  Counts
are embedded as integers (`Translator.tn` passes Python ints). -/
def get_rule (language : String) (n : Int) : PluralRule :=
  let m : Nat := n.natAbs
  if language ∈ ["en", "de", "es", "it", "pt", "nl"] then
    if m = 1 then .one else .other
  else if language = "fr" then
    if m < 2 then .one else .other
  else if language ∈ ["ru", "pl", "uk"] then
    let n_mod_10 := m % 10
    let n_mod_100 := m % 100
    if n_mod_10 = 1 ∧ n_mod_100 ≠ 11 then .one
    else if n_mod_10 ∈ [2, 3, 4] ∧ n_mod_100 ∉ [12, 13, 14] then .few
    else .many
  else if language = "ar" then
    if m = 0 then .zero
    else if m = 1 then .one
    else if m = 2 then .two
    else if 3 ≤ m % 100 ∧ m % 100 ≤ 10 then .few
    else if 11 ≤ m % 100 ∧ m % 100 ≤ 99 then .many
    else .other
  else
    if m = 1 then .one else .other

/-- The decision table exactly as the specification states it (for the
refinement comparison with `get_rule`): a function of the absolute value of
the count, `fr` / `ru`-group / `ar` handled specially, every other language
(the `en` group included) using the `one` iff `|count| = 1` default. -/
def spec_table (language : String) (n : Int) : PluralRule :=
  let m : Nat := n.natAbs
  if language = "fr" then
    if m < 2 then .one else .other
  else if language = "ru" ∨ language = "pl" ∨ language = "uk" then
    let d10 := m % 10
    let d100 := m % 100
    if d10 = 1 ∧ d100 ≠ 11 then .one
    else if (d10 = 2 ∨ d10 = 3 ∨ d10 = 4) ∧ ¬(d100 = 12 ∨ d100 = 13 ∨ d100 = 14) then .few
    else .many
  else if language = "ar" then
    if m = 0 then .zero
    else if m = 1 then .one
    else if m = 2 then .two
    else if 3 ≤ m % 100 ∧ m % 100 ≤ 10 then .few
    else if 11 ≤ m % 100 ∧ m % 100 ≤ 99 then .many
    else .other
  else
    if m = 1 then .one else .other

end PluralRules

/-- The default English locale added by `Translator.__init__`. -/
def enLocale : Locale :=
  { code := "en", language := "en", name := "English" }

/-- The Spanish locale as configured in the source's example usage:
thousands separator `.`, decimal separator `,`, symbol `€`. -/
def esLocale : Locale :=
  { code := "es", language := "es", name := "Spanish"
    currency_symbol := "€", decimal_separator := ",", thousands_separator := "." }

/-- A locale with the default separators and layout but a `€` symbol, for
the currency scenario (`layout "{symbol}{amount}"`, symbol `"€"`). -/
def euroLocale : Locale :=
  { code := "eu", language := "eu", currency_symbol := "€" }

/-- Catalog of messages for a locale (`class MessageCatalog`); `messages` is
the qualified-key → `Message` dict. -/
structure MessageCatalog where
  locale : Locale
  messages : List (String × Message) := []
  deriving DecidableEq, Repr

namespace MessageCatalog

/-- `f"{context}:{key}" if context else key` (a non-empty string is truthy). -/
def qualifiedKey (context key : String) : String :=
  if context ≠ "" then context ++ ":" ++ key else key

/-- `MessageCatalog.add`: store under the qualified key, overwriting. -/
def add (c : MessageCatalog) (m : Message) : MessageCatalog :=
  { c with messages := ainsert (qualifiedKey m.context m.key) m c.messages }

/-- `MessageCatalog.get`: context-qualified lookup first, then (`or`) the
bare key. -/
def get (c : MessageCatalog) (key : String) (context : String := "") : Option Message :=
  let full_key := qualifiedKey context key
  (alookup full_key c.messages).orElse fun _ => alookup key c.messages

/-- `MessageCatalog.add_messages`: each pair becomes a plain entry. -/
def add_messages (c : MessageCatalog) (msgs : List (String × String)) : MessageCatalog :=
  msgs.foldl (fun acc p => acc.add { key := p.1, value := p.2 }) c

end MessageCatalog

/-- One value of the parsed JSON mapping consumed by
`MessageCatalog.load_json`: either a plain string or an object, of which the
code reads the keys `value`, `one`, `plural`, `context`, `description`
(each possibly absent). -/
inductive JEntry where
  | jstr (s : String)
  | jobj (value one : Option String) (plural : Option (List (String × String)))
      (context description : Option String)
  deriving DecidableEq, Repr

namespace MessageCatalog

/-- The `Message(...)` built for one parsed value in `load_json`'s loop:
`value.get("value", value.get("one", ""))`, `value.get("plural", {})`, etc. -/
def entryMessage (key : String) : JEntry → Message
  | .jstr s => { key := key, value := s }
  | .jobj value one plural context description =>
      { key := key
        value := value.getD (one.getD "")
        plural_forms := plural.getD []
        context := context.getD ""
        description := description.getD "" }

/-- The loop of `MessageCatalog.load_json` applied to the already-parsed
mapping (the file read and `json.load` are the out-of-scope I/O boundary):
adds each entry in order and counts every processed pair. -/
def load_data : MessageCatalog → List (String × JEntry) → MessageCatalog × Nat
  | c, [] => (c, 0)
  | c, p :: rest =>
    let r := load_data (c.add (entryMessage p.1 p.2)) rest
    (r.1, r.2 + 1)

end MessageCatalog

/-- One value of the dict produced by `MessageCatalog.to_dict`: the
`{value, plural}` object when the entry has plural forms, else the bare
string. -/
inductive ExportVal where
  | str (v : String)
  | obj (value : String) (plural : List (String × String))
  deriving DecidableEq, Repr

namespace MessageCatalog

/-- `MessageCatalog.to_dict`: serialize each entry, object form iff
`msg.plural_forms` is truthy (non-empty). -/
def to_dict (c : MessageCatalog) : List (String × ExportVal) :=
  c.messages.map fun p =>
    (p.1,
      if p.2.plural_forms ≠ [] then ExportVal.obj p.2.value p.2.plural_forms
      else ExportVal.str p.2.value)

/-- Re-parsing of one exported value: the object form is a parsed dict with
exactly the keys `value` and `plural` present. -/
def exportEntry : ExportVal → JEntry
  | .str v => .jstr v
  | .obj v pl => .jobj (some v) none (some pl) none none

end MessageCatalog

/-- Concrete catalog with one plural-form entry and one simple entry, used
to instantiate the export/import round-trip. -/
def sampleCatalog : MessageCatalog :=
  { locale := enLocale
    messages :=
      [("items", { key := "items", value := "You have {count} item"
                   plural_forms := [("one", "You have {count} item"),
                                    ("other", "You have {count} items")] }),
       ("welcome", { key := "welcome", value := "Welcome, {name}!" })] }

/-! ### Number rendering: the Python f-strings `f"{v:,.{d}f}"` / `f"{v:,}"` -/

/-- Decimal digits of `n`, most significant first.  Fuel-based so closed
terms reduce in the kernel; any `fuel > n` is enough fuel. -/
def natReprF : Nat → Nat → List Char
  | 0, _ => []
  | fuel + 1, n =>
    if n < 10 then [Nat.digitChar n]
    else natReprF fuel (n / 10) ++ [Nat.digitChar (n % 10)]

/-- Decimal digits of `n`, most significant first (`"0"` for zero). -/
def natRepr (n : Nat) : List Char := natReprF (n + 1) n

/-- Exactly `d` decimal digits: the `d` low-order digits of `n`,
zero-padded, most significant first. -/
def natDigits : Nat → Nat → List Char
  | _, 0 => []
  | n, d + 1 => natDigits (n / 10) d ++ [Nat.digitChar (n % 10)]

/-- Grouping step on a reversed digit list: a `,` after every three
characters from the right. -/
def group3R : List Char → List Char
  | a :: b :: c :: d :: rest => a :: b :: c :: ',' :: group3R (d :: rest)
  | l => l

/-- Python's `,` grouping of an integer-part digit string. -/
def group3 (l : List Char) : List Char := (group3R l.reverse).reverse

/-- Round half to even, as CPython's fixed-point float rendering does on
the value (embedded here as the exact rational the float denotes). -/
def pyRound (x : ℚ) : Int :=
  if x - (⌊x⌋ : Int) < 1 / 2 then ⌊x⌋
  else if 1 / 2 < x - (⌊x⌋ : Int) then ⌊x⌋ + 1
  else if ⌊x⌋ % 2 = 0 then ⌊x⌋ else ⌊x⌋ + 1

/-- Python `f"{value:,.{d}f}"` on the rational value of a float: sign,
3-digit-grouped integer part, then (when `d > 0`) a point and exactly `d`
fractional digits of the rounded scaled value. -/
def renderCommaFixed (q : ℚ) (d : Nat) : List Char :=
  (if q < 0 then ['-'] else []) ++
    group3 (natRepr ((pyRound (|q| * (10 : ℚ) ^ d)).toNat / 10 ^ d)) ++
    (if d = 0 then []
     else '.' :: natDigits ((pyRound (|q| * (10 : ℚ) ^ d)).toNat % 10 ^ d) d)

/-- Python `f"{value:,}"` on an int: sign and 3-digit-grouped digits. -/
def renderCommaInt (i : Int) : List Char :=
  (if i < 0 then ['-'] else []) ++ group3 (natRepr i.natAbs)

/-- Python `str.replace`: all non-overlapping occurrences, left to right,
replacements never rescanned.  Fuel-based; `fuel ≥ s.length` is enough. -/
def replaceStrF (pat rep : List Char) : Nat → List Char → List Char
  | _, [] => []
  | 0, s => s
  | fuel + 1, c :: rest =>
    if pat ≠ [] ∧ pat.isPrefixOf (c :: rest) then
      rep ++ replaceStrF pat rep fuel ((c :: rest).drop pat.length)
    else
      c :: replaceStrF pat rep fuel rest

/-- Python `s.replace(pat, rep)`. -/
def replaceStr (pat rep s : List Char) : List Char := replaceStrF pat rep s.length s

/-- The sentinel `format_number` uses so the two separator substitutions
cannot collide. -/
def thousandsToken : List Char := "__THOUSANDS__".data

namespace MessageFormatter

/-- The three `replace` passes closing `MessageFormatter.format_number`:
`,` → token, `.` → locale decimal separator, token → locale thousands
separator. -/
def sepSubst (loc : Locale) (s : List Char) : List Char :=
  replaceStr thousandsToken loc.thousands_separator.data
    (replaceStr ['.'] loc.decimal_separator.data
      (replaceStr [','] thousandsToken s))

end MessageFormatter

/-- A Python number: `int` or `float` (embedded as the exact rational the
float denotes). -/
inductive PyNum where
  | int (i : Int)
  | float (q : ℚ)
  deriving DecidableEq

/-- Python `abs(value)` (keeps the int/float kind). -/
def PyNum.abs : PyNum → PyNum
  | .int i => .int |i|
  | .float q => .float |q|

/-- Python `value < 0`. -/
def PyNum.isNeg : PyNum → Bool
  | .int i => i < 0
  | .float q => q < 0

namespace MessageFormatter

/-- `MessageFormatter.format_number`: floats render via
`f"{value:,.{decimals}f}"` (a negative precision makes the f-string raise
`ValueError`), ints via `f"{value:,}"` — ignoring `decimals` — and both
results go through the separator substitution. -/
def format_number (loc : Locale) (v : PyNum) (decimals : Int := 0) : Except String String :=
  match v with
  | .float q =>
    if decimals < 0 then .error "ValueError: invalid format spec"
    else .ok (String.mk (sepSubst loc (renderCommaFixed q decimals.toNat)))
  | .int i => .ok (String.mk (sepSubst loc (renderCommaInt i)))

/-- `MessageFormatter.format_decimal`: `format_number` with explicit places. -/
def format_decimal (loc : Locale) (v : PyNum) (places : Int := 2) : Except String String :=
  format_number loc v places

end MessageFormatter

/-- Python `str.format(symbol=..., amount=...)` restricted to patterns made
of literal text and `{field}` references without escapes, indexing or
conversions — the shape of every currency layout pattern the code meets.
An unknown field raises `KeyError`, an unterminated `{` raises
`ValueError`.  Fuel-based; `fuel ≥ s.length` is enough. -/
def formatFieldsF (fields : List (String × String)) : Nat → List Char → Except String (List Char)
  | _, [] => .ok []
  | 0, s => .ok s
  | fuel + 1, c :: rest =>
    if c = '{' then
      match rest.dropWhile (· ≠ '}') with
      | '}' :: r =>
        match alookup (String.mk (rest.takeWhile (· ≠ '}'))) fields with
        | some v => (formatFieldsF fields fuel r).map (v.data ++ ·)
        | none => .error "KeyError"
      | _ => .error "ValueError: expected closing brace"
    else
      (formatFieldsF fields fuel rest).map (c :: ·)

/-- `pattern.format(...)` over the whole pattern. -/
def formatFields (fields : List (String × String)) (s : List Char) : Except String (List Char) :=
  formatFieldsF fields s.length s

namespace MessageFormatter

/-- `MessageFormatter.format_currency`: `symbol or locale.currency_symbol`
(an empty override is falsy), `format_decimal(abs(value), 2)`, substitution
into the currency layout at `{symbol}`/`{amount}`, and a `-` prefixed to
the whole string when the original value was negative. -/
def format_currency (loc : Locale) (v : PyNum) (symbol : Option String := none) :
    Except String String := do
  let sym := match symbol with
    | some s => if s = "" then loc.currency_symbol else s
    | none => loc.currency_symbol
  let amount ← format_decimal loc v.abs 2
  let f ← formatFields [("symbol", sym), ("amount", amount)] loc.currency_format.data
  pure (if v.isNeg then "-" ++ String.mk f else String.mk f)

end MessageFormatter

/-- A placeholder value (`Any` in the source): the embedding covers the int
and string values the claims exercise; dates and floats reach the
formatter only through the numeric sub-formatters, which take `PyNum`. -/
inductive Value where
  | int (i : Int)
  | str (s : String)
  deriving DecidableEq

/-- Python `str(value)` for the embedded values. -/
def pyStr : Value → String
  | .int i => String.mk ((if i < 0 then ['-'] else []) ++ natRepr i.natAbs)
  | .str s => s

/-- Handing a value to a numeric formatter: Python raises (`TypeError` /
`ValueError` from the f-string) when it is not a number. -/
def Value.toNum : Value → Except String PyNum
  | .int i => .ok (.int i)
  | .str _ => .error "TypeError: not a number"

/-- Python `str.split(":")`. -/
def splitOnColon : List Char → List (List Char)
  | [] => [[]]
  | c :: rest =>
    if c = ':' then [] :: splitOnColon rest
    else
      match splitOnColon rest with
      | [] => [[c]]
      | g :: gs => (c :: g) :: gs

/-- Python `int(s)` on the digit run after `decimal:`: optional sign then
decimal digits, anything else raises `ValueError`. -/
def pyInt (s : String) : Except String Int :=
  match s.data with
  | '-' :: rest => (pyIntDigits rest).map fun n => -(n : Int)
  | '+' :: rest => (pyIntDigits rest).map fun n => (n : Int)
  | chars => (pyIntDigits chars).map fun n => (n : Int)
where
  pyIntDigits (l : List Char) : Except String Nat :=
    if l ≠ [] ∧ l.all Char.isDigit then
      .ok (l.foldl (fun acc c => acc * 10 + (c.toNat - 48)) 0)
    else .error "ValueError: invalid literal for int"

namespace MessageFormatter

/-- `MessageFormatter._apply_format` (underscore dropped): dispatch on the
format spec.  The `decimal:` branch runs `int(spec.split(":")[1])` and so
can raise; `date`/`time`/`datetime` call `strftime` on the value, which
raises `AttributeError` for every value kind the embedding covers; every
other spec falls through to `str(value)`. -/
def applyFormat (loc : Locale) (v : Value) (spec : String) : Except String String :=
  if spec = "number" then do format_number loc (← v.toNum) 0
  else if spec = "currency" then do format_currency loc (← v.toNum) none
  else if spec = "date" then .error "AttributeError: no strftime"
  else if spec = "time" then .error "AttributeError: no strftime"
  else if spec = "datetime" then .error "AttributeError: no strftime"
  else if "decimal:".data.isPrefixOf spec.data then do
    let places ← pyInt (String.mk (((splitOnColon spec.data).get? 1).getD []))
    format_decimal loc (← v.toNum) places
  else .ok (pyStr v)

end MessageFormatter

/-- `\w` of `PLACEHOLDER_PATTERN` over the ASCII alphabet the catalogs use. -/
def isWordChar (c : Char) : Bool := c.isAlphanum || c = '_'

/-- The characters the optional `:spec` group of a placeholder contributes
to the whole match. -/
def spPart : Option (List Char) → List Char
  | none => []
  | some s => ':' :: s

/-- One attempted match of `PLACEHOLDER_PATTERN = \{(\w+)(?::([^\x7d]+))?\}`
just after a `{`: the greedy `\w+` name run, the optional `:spec` group
(`[^\x7d]+` greedy), and the closing brace; returns name, optional spec and
the input after the match.  (The pattern admits no other backtracking:
a shorter `\w+` run is followed by a word character, never `:` or `}`.) -/
def tryPlaceholder (l : List Char) : Option (List Char × Option (List Char) × List Char) :=
  if l.takeWhile isWordChar = [] then none
  else
    match l.dropWhile isWordChar with
    | [] => none
    | c :: l1 =>
      if c = '}' then some (l.takeWhile isWordChar, none, l1)
      else if c = ':' then
        match l1.dropWhile (· ≠ '}') with
        | [] => none
        | c2 :: r =>
          if c2 = '}' then
            if l1.takeWhile (· ≠ '}') = [] then none
            else some (l.takeWhile isWordChar, some (l1.takeWhile (· ≠ '}')), r)
          else none
      else none

namespace MessageFormatter

/-- `re.sub` of the placeholder pattern over the template, i.e. the body of
`MessageFormatter.format`: scan left to right; on a match, an absent name
reproduces the match verbatim, a present name substitutes `str(value)` or
the applied format spec (whose errors propagate, as a raise from the
callback would); the replacement is never rescanned.  Fuel-based;
`fuel ≥ s.length` is enough, every step consumes at least one character. -/
def pySubF (loc : Locale) (vals : List (String × Value)) :
    Nat → List Char → Except String (List Char)
  | _, [] => .ok []
  | 0, s => .ok s
  | fuel + 1, c :: rest =>
    if c = '{' then
      match tryPlaceholder rest with
      | some (name, spec?, r) =>
        let piece : Except String (List Char) :=
          match alookup (String.mk name) vals with
          | none =>
            .ok ('{' :: name ++
              (match spec? with
                | none => []
                | some sp => ':' :: sp) ++ ['}'])
          | some v =>
            match spec? with
            | none => .ok (pyStr v).data
            | some sp => (applyFormat loc v (String.mk sp)).map String.data
        do
          let p ← piece
          let t ← pySubF loc vals fuel r
          pure (p ++ t)
      | none => (pySubF loc vals fuel rest).map (c :: ·)
    else (pySubF loc vals fuel rest).map (c :: ·)

/-- `MessageFormatter.format(template, **kwargs)`. -/
def format (loc : Locale) (template : String) (vals : List (String × Value)) :
    Except String String :=
  (pySubF loc vals template.data.length template.data).map String.mk

end MessageFormatter

/-- `class Translator` state.  A `MessageFormatter` instance is exactly its
`Locale`, so the `formatters` dict maps codes to `Locale`s. -/
structure Translator where
  default_locale : String
  current_locale : String
  locales : List (String × Locale) := []
  catalogs : List (String × MessageCatalog) := []
  formatters : List (String × Locale) := []
  fallback_chain : List (String × List String) := []
  deriving Repr

namespace Translator

/-- `Translator.add_locale`: one entry in each of the three dicts. -/
def add_locale (tr : Translator) (locale : Locale) : Translator :=
  { tr with
    locales := ainsert locale.code locale tr.locales
    catalogs := ainsert locale.code { locale := locale } tr.catalogs
    formatters := ainsert locale.code locale tr.formatters }

/-- `Translator.__init__(default_locale="en")`: records the given default
and current locale, then registers the English locale — `"en"`, not the
given default. -/
def init (default_locale : String := "en") : Translator :=
  add_locale
    { default_locale := default_locale
      current_locale := default_locale }
    enLocale

/-- `Translator.set_locale`: transition only when registered; reports
success. -/
def set_locale (tr : Translator) (code : String) : Translator × Bool :=
  if (alookup code tr.locales).isSome then
    ({ tr with current_locale := code }, true)
  else (tr, false)

/-- `Translator.set_fallback_chain`. -/
def set_fallback_chain (tr : Translator) (locale : String) (fallbacks : List String) :
    Translator :=
  { tr with fallback_chain := ainsert locale fallbacks tr.fallback_chain }

/-- `Translator.load_messages`: adds into the locale's catalog when there is
one, silently does nothing otherwise (the in-place mutation of the Python
catalog object becomes an overwrite of its dict slot). -/
def load_messages (tr : Translator) (locale : String) (messages : List (String × String)) :
    Translator :=
  match alookup locale tr.catalogs with
  | some c => { tr with catalogs := ainsert locale (c.add_messages messages) tr.catalogs }
  | none => tr

/-- One step of `_find_message`: `catalogs.get(loc)` and, if registered,
the catalog lookup (an unregistered locale yields no match). -/
def tryLocale (tr : Translator) (loc key context : String) : Option Message :=
  match alookup loc tr.catalogs with
  | some catalog => catalog.get key context
  | none => none

/-- The `for fallback in fallbacks` loop of `_find_message`. -/
def findInChain (tr : Translator) : List String → String → String → Option Message
  | [], _, _ => none
  | fb :: rest, key, context =>
    match tr.tryLocale fb key context with
    | some m => some m
    | none => findInChain tr rest key context

/-- `Translator._find_message` (underscore dropped): the requested locale's
catalog, then each fallback in order, then the default locale's catalog —
the last only when the requested locale is not the default. -/
def find_message (tr : Translator) (key locale context : String) : Option Message :=
  match tr.tryLocale locale key context with
  | some m => some m
  | none =>
    match tr.findInChain ((alookup locale tr.fallback_chain).getD []) key context with
    | some m => some m
    | none =>
      if locale ≠ tr.default_locale then tr.tryLocale tr.default_locale key context
      else none

/-- `Translator.t`: resolve (`locale or self.current_locale` — `None` and
the falsy `""` both fall back), return the raw key on a miss, else format
with `formatters.get(locale) or formatters[self.default_locale]` (the
subscript raises `KeyError` when the default has no formatter). -/
def t (tr : Translator) (key : String) (locale : Option String := none)
    (context : String := "") (vals : List (String × Value) := []) : Except String String :=
  let loc := match locale with
    | none => tr.current_locale
    | some l => if l = "" then tr.current_locale else l
  match tr.find_message key loc context with
  | none => .ok key
  | some message =>
    match alookup loc tr.formatters with
    | some f => MessageFormatter.format f message.value vals
    | none =>
      match alookup tr.default_locale tr.formatters with
      | some f => MessageFormatter.format f message.value vals
      | none => .error "KeyError: no formatter for the default locale"

end Translator

/-- One public mutating operation on a `Translator`, for stating
invariants over arbitrary operation sequences. -/
inductive TranslatorOp where
  | addLocale (locale : Locale)
  | setLocale (code : String)
  | setFallbackChain (locale : String) (fallbacks : List String)
  | loadMessages (locale : String) (messages : List (String × String))

/-- Apply one operation. -/
def applyOp (tr : Translator) : TranslatorOp → Translator
  | .addLocale l => tr.add_locale l
  | .setLocale c => (tr.set_locale c).1
  | .setFallbackChain l fbs => tr.set_fallback_chain l fbs
  | .loadMessages l msgs => tr.load_messages l msgs

/-- A freshly constructed translator after an arbitrary operation
sequence. -/
def runOps (default_locale : String) (ops : List TranslatorOp) : Translator :=
  ops.foldl applyOp (Translator.init default_locale)

/-- The fallback-precedence scenario: default locale `"D"` (with the key),
locale `"A"` registered with an empty catalog and fallback chain `["B"]`,
locale `"B"` registered with the key. -/
def scenarioTranslator : Translator :=
  ((((Translator.init "D").add_locale { code := "A", language := "a" }).add_locale
        { code := "B", language := "b" }).add_locale
      { code := "D", language := "d" }
    |>.set_fallback_chain "A" ["B"]
    |>.load_messages "B" [("greet", "B text")]
    |>.load_messages "D" [("greet", "D text")])

end RoadLocale

namespace RoadLocale

/-- C1: `PluralRules.get_rule` is a pure total function on the absolute value
of the count that agrees everywhere with the spec's fixed decision table
(`en`-group and unlisted languages: `one` iff `|n| = 1`; `fr`: `one` iff
`|n| < 2`; `ru`/`pl`/`uk`: `one`/`few`/`many` by the mod-10/mod-100 rule,
never `zero`/`two`/`other`; `ar`: the six-way rule), and in particular takes
the claim's listed values at `ru` 21/22/11, `ar` 0/2 and `fr` 0/2. -/
theorem C1_get_rule_matches_spec_table :
    (∀ (language : String) (n : Int),
        PluralRules.get_rule language n = PluralRules.spec_table language n) ∧
    (∀ lang n, lang = "ru" ∨ lang = "pl" ∨ lang = "uk" →
        PluralRules.get_rule lang n ≠ .zero ∧
        PluralRules.get_rule lang n ≠ .two ∧
        PluralRules.get_rule lang n ≠ .other) ∧
    PluralRules.get_rule "ru" 21 = .one ∧
    PluralRules.get_rule "ru" 22 = .few ∧
    PluralRules.get_rule "ru" 11 = .many ∧
    PluralRules.get_rule "ar" 0 = .zero ∧
    PluralRules.get_rule "ar" 2 = .two ∧
    PluralRules.get_rule "fr" 0 = .one ∧
    PluralRules.get_rule "fr" 2 = .other := by
  refine ⟨?_, ?_, by decide, by decide, by decide, by decide, by decide, by decide, by decide⟩
  · intro language n
    unfold PluralRules.get_rule PluralRules.spec_table
    by_cases hen : language ∈ (["en", "de", "es", "it", "pt", "nl"] : List String)
    · fin_cases hen <;> simp
    · simp only [hen, if_false]
      by_cases hfr : language = "fr"
      · simp [hfr]
      · simp only [hfr, if_false]
        by_cases hru : language ∈ (["ru", "pl", "uk"] : List String)
        · have hru' : language = "ru" ∨ language = "pl" ∨ language = "uk" := by
            simpa using hru
          simp only [hru, hru', if_true]
          split_ifs <;> first | rfl | (exfalso; simp_all)
        · have hru' : ¬(language = "ru" ∨ language = "pl" ∨ language = "uk") := by
            simpa using hru
          simp only [hru, hru', if_false]
  · intro lang n hlang
    have hmem : lang ∈ (["ru", "pl", "uk"] : List String) := by simpa using hlang
    have hen : lang ∉ (["en", "de", "es", "it", "pt", "nl"] : List String) := by
      rcases hlang with h | h | h <;> simp [h]
    have hfr : lang ≠ "fr" := by
      rcases hlang with h | h | h <;> simp [h]
    unfold PluralRules.get_rule
    simp only [hen, if_false, hfr, hmem, if_true]
    split_ifs <;> simp

/-- Witness for C1's implication clause at `pl`, count 22. -/
theorem C1_get_rule_matches_spec_table_witness :
    PluralRules.get_rule "pl" 22 ≠ .zero ∧ PluralRules.get_rule "pl" 22 ≠ .two ∧
      PluralRules.get_rule "pl" 22 ≠ .other :=
  C1_get_rule_matches_spec_table.2.1 "pl" 22 (Or.inr (Or.inl rfl))

theorem alookup_append (k : String) (l₁ l₂ : List (String × α)) :
    alookup k (l₁ ++ l₂) = (alookup k l₁).orElse fun _ => alookup k l₂ := by
  induction l₁ with
  | nil => rfl
  | cons p rest ih =>
    obtain ⟨k', v⟩ := p
    by_cases h : k' = k <;> simp [alookup, h, ih]

theorem MessageCatalog.entryMessage_key (k : String) (e : JEntry) :
    (MessageCatalog.entryMessage k e).key = k := by
  cases e <;> rfl

/-- Loading a list of parsed entries whose keys are fresh and whose built
messages carry no context appends them, in order, under their own keys. -/
theorem MessageCatalog.load_data_fresh (data : List (String × JEntry)) :
    ∀ c : MessageCatalog,
      (∀ p ∈ data, (MessageCatalog.entryMessage p.1 p.2).context = "") →
      (data.map Prod.fst).Nodup →
      (∀ p ∈ data, alookup p.1 c.messages = none) →
      ((MessageCatalog.load_data c data).1).messages =
        c.messages ++ data.map fun p => (p.1, MessageCatalog.entryMessage p.1 p.2) := by
  induction data with
  | nil => intro c _ _ _; simp [MessageCatalog.load_data]
  | cons p rest ih =>
    intro c hctx hnd hfresh
    rw [List.map_cons] at hnd
    obtain ⟨hnotin, hndrest⟩ := List.nodup_cons.mp hnd
    have hctxp : (MessageCatalog.entryMessage p.1 p.2).context = "" := hctx p (by simp)
    have hfirst : alookup p.1 c.messages = none := hfresh p (by simp)
    have hadd :
        (c.add (MessageCatalog.entryMessage p.1 p.2)).messages =
          c.messages ++ [(p.1, MessageCatalog.entryMessage p.1 p.2)] := by
      simp [MessageCatalog.add, MessageCatalog.qualifiedKey, ainsert, hctxp,
        hfirst, MessageCatalog.entryMessage_key]
    have hrest := ih (c.add (MessageCatalog.entryMessage p.1 p.2))
      (fun q hq => hctx q (by simp [hq]))
      hndrest
      (fun q hq => by
        have hne : q.1 ≠ p.1 := by
          intro h
          exact hnotin (h ▸ List.mem_map_of_mem Prod.fst hq)
        have hq' : alookup q.1 c.messages = none := hfresh q (by simp [hq])
        rw [hadd, alookup_append, hq']
        simp [alookup, hne.symm])
    simp only [MessageCatalog.load_data]
    rw [hrest, hadd]
    simp

/-- C5 (amended): importing a structured object entry yields a message whose
default text is the object's `value` field when present, otherwise the
object's top-level `one` field (the `plural` mapping is not consulted),
otherwise the empty string; the plural mapping, context and description
fields are copied through, and the entry is retrievable under its
context-qualified key. -/
theorem C5_structured_import (loc : Locale) (key : String)
    (value one : Option String) (plural : Option (List (String × String)))
    (context description : Option String) :
    ((MessageCatalog.load_data { locale := loc }
        [(key, .jobj value one plural context description)]).1).get key (context.getD "") =
      some { key := key
             value := value.getD (one.getD "")
             plural_forms := plural.getD []
             context := context.getD ""
             description := description.getD "" } := by
  simp only [MessageCatalog.load_data, MessageCatalog.add, MessageCatalog.entryMessage,
    MessageCatalog.get, MessageCatalog.qualifiedKey, ainsert, alookup]
  split_ifs <;> simp_all [alookup]

/-- C5 counterexample: an object with no `value` field (and no top-level
`one` field) whose `plural` mapping binds category `one` to `"single"`
imports with default text `""`, not the `plural["one"]` text the claim
requires. -/
theorem C5_plural_one_ignored :
    ((MessageCatalog.load_data { locale := enLocale }
        [("k", .jobj none none (some [("one", "single")]) none none)]).1).get "k" "" =
      some { key := "k", value := "", plural_forms := [("one", "single")] } ∧
    ("" : String) ≠ "single" :=
  ⟨by decide, by decide⟩

/-- C6: for every catalog with distinct stored keys (a Python dict),
containing at least one entry with non-empty plural forms and at least one
simple entry, re-importing the exported dict into a fresh catalog and
exporting again reproduces the export exactly. -/
theorem C6_export_import_roundtrip (loc : Locale) (c : MessageCatalog)
    (hnd : (c.messages.map Prod.fst).Nodup)
    (_hplural : ∃ p ∈ c.messages, p.2.plural_forms ≠ [])
    (_hsimple : ∃ p ∈ c.messages, p.2.plural_forms = []) :
    MessageCatalog.to_dict
        ((MessageCatalog.load_data { locale := loc }
          ((c.to_dict).map fun p => (p.1, MessageCatalog.exportEntry p.2))).1) =
      c.to_dict := by
  have hmsgs :=
    MessageCatalog.load_data_fresh
      ((c.to_dict).map fun p => (p.1, MessageCatalog.exportEntry p.2))
      { locale := loc, messages := [] }
      (by
        intro p hp
        simp only [List.mem_map] at hp
        obtain ⟨q, _, rfl⟩ := hp
        cases q.2 <;> simp [MessageCatalog.exportEntry, MessageCatalog.entryMessage])
      (by simpa [MessageCatalog.to_dict, List.map_map, Function.comp] using hnd)
      (by intro p _; simp [alookup])
  conv_lhs => rw [MessageCatalog.to_dict, hmsgs]
  conv_rhs => rw [MessageCatalog.to_dict]
  simp only [MessageCatalog.to_dict, List.nil_append, List.map_map]
  apply List.map_congr_left
  intro p _
  by_cases h : p.2.plural_forms = [] <;>
    simp [Function.comp, h, MessageCatalog.exportEntry, MessageCatalog.entryMessage]

theorem takeWhile_append_all (p : Char → Bool) (l l' : List Char)
    (h : ∀ c ∈ l, p c = true) : (l ++ l').takeWhile p = l ++ l'.takeWhile p := by
  induction l with
  | nil => simp
  | cons c rest ih =>
    have hc := h c (by simp)
    simp [List.takeWhile_cons, hc, ih fun x hx => h x (by simp [hx])]

theorem dropWhile_append_all (p : Char → Bool) (l l' : List Char)
    (h : ∀ c ∈ l, p c = true) : (l ++ l').dropWhile p = l'.dropWhile p := by
  induction l with
  | nil => simp
  | cons c rest ih =>
    have hc := h c (by simp)
    simp [List.dropWhile_cons, hc, ih fun x hx => h x (by simp [hx])]

theorem exceptOkBind {ε α β : Type} (a : α) (f : α → Except ε β) :
    (Except.ok (ε := ε) a >>= f) = f a := rfl

theorem exceptErrorBind {ε α β : Type} (e : ε) (f : α → Except ε β) :
    (Except.error (α := α) e >>= f) = (Except.error e : Except ε β) := rfl

theorem exceptPure {ε α : Type} (a : α) : (pure a : Except ε α) = Except.ok a := rfl

theorem exceptMapOk {ε α β : Type} (f : α → β) (a : α) :
    (Except.ok (ε := ε) a).map f = Except.ok (f a) := rfl

theorem exceptMapError {ε α β : Type} (f : α → β) (e : ε) :
    (Except.error (α := α) e).map f = (Except.error e : Except ε β) := rfl

/-- The head of a non-empty `dropWhile` result falsifies the predicate. -/
theorem dropWhile_head_not (p : α → Bool) (l : List α) (c : α) (r : List α)
    (h : l.dropWhile p = c :: r) : p c = false := by
  induction l with
  | nil => simp at h
  | cons a rest ih =>
    rw [List.dropWhile_cons] at h
    by_cases ha : p a
    · rw [if_pos ha] at h
      exact ih h
    · rw [if_neg ha] at h
      injection h with h1 h2
      subst h1
      simpa using ha

/-- A successful placeholder match decomposes the input as
name ++ optional colon-spec ++ closing brace ++ rest. -/
theorem tryPlaceholder_some (l n : List Char) (sp : Option (List Char)) (r : List Char)
    (h : tryPlaceholder l = some (n, sp, r)) :
    n ≠ [] ∧ l = n ++ spPart sp ++ '}' :: r := by
  unfold tryPlaceholder at h
  by_cases hname : l.takeWhile isWordChar = []
  · simp [hname] at h
  · rw [if_neg hname] at h
    rcases hdw : l.dropWhile isWordChar with _ | ⟨c, l1⟩
    · rw [hdw] at h
      exact absurd h (by simp)
    · rw [hdw] at h
      dsimp only at h
      by_cases hc : c = '}'
      · subst hc
        rw [if_pos rfl] at h
        obtain ⟨rfl, rfl, rfl⟩ :
            l.takeWhile isWordChar = n ∧ (none : Option (List Char)) = sp ∧ l1 = r := by
          simpa using h
        refine ⟨hname, ?_⟩
        conv_lhs => rw [← List.takeWhile_append_dropWhile (p := isWordChar) (l := l)]
        simp [hdw, spPart]
      · rw [if_neg hc] at h
        by_cases hc2 : c = ':'
        · subst hc2
          rw [if_pos rfl] at h
          rcases hdw2 : l1.dropWhile (· ≠ '}') with _ | ⟨c2, r2⟩
          · rw [hdw2] at h
            exact absurd h (by simp)
          · rw [hdw2] at h
            dsimp only at h
            have hc2' : c2 = '}' := by
              have := dropWhile_head_not (fun x => decide (x ≠ '}')) l1 c2 r2 hdw2
              simpa using this
            subst hc2'
            rw [if_pos rfl] at h
            by_cases hspec : l1.takeWhile (· ≠ '}') = []
            · rw [if_pos hspec] at h
              exact absurd h (by simp)
            · rw [if_neg hspec] at h
              obtain ⟨rfl, rfl, rfl⟩ :
                  l.takeWhile isWordChar = n ∧
                    (some (l1.takeWhile (· ≠ '}')) : Option (List Char)) = sp ∧ r2 = r := by
                simpa using h
              refine ⟨hname, ?_⟩
              conv_lhs => rw [← List.takeWhile_append_dropWhile (p := isWordChar) (l := l)]
              rw [hdw]
              conv_lhs =>
                rw [show l1 = l1.takeWhile (· ≠ '}') ++ l1.dropWhile (· ≠ '}') from
                  (List.takeWhile_append_dropWhile ..).symm, hdw2]
              simp [spPart]
        · rw [if_neg hc2] at h
          exact absurd h (by simp)

/-- A placeholder match consumes at least two characters. -/
theorem tryPlaceholder_length (l n : List Char) (sp : Option (List Char)) (r : List Char)
    (h : tryPlaceholder l = some (n, sp, r)) : r.length + 2 ≤ l.length := by
  obtain ⟨hne, hdec⟩ := tryPlaceholder_some l n sp r h
  subst hdec
  have : 1 ≤ n.length := Nat.one_le_iff_ne_zero.mpr (by simpa using hne)
  cases sp <;> simp [spPart, List.length_append] <;> omega

/-- With no bound values every replacement reproduces the match, so the
substitution is the identity. -/
theorem pySubF_nil (loc : Locale) : ∀ (fuel : Nat) (s : List Char), s.length ≤ fuel →
    MessageFormatter.pySubF loc [] fuel s = .ok s := by
  intro fuel
  induction fuel with
  | zero =>
    intro s hs
    have : s = [] := List.eq_nil_of_length_eq_zero (Nat.le_zero.mp hs)
    subst this
    rfl
  | succ fuel ih =>
    intro s hs
    match s with
    | [] => rfl
    | c :: rest =>
      have hrest : rest.length ≤ fuel := by
        simpa using Nat.le_of_succ_le_succ hs
      simp only [MessageFormatter.pySubF]
      by_cases hc : c = '{'
      · subst hc
        simp only [if_pos rfl]
        rcases htp : tryPlaceholder rest with _ | ⟨n, sp, r⟩
        · simp [htp, ih rest hrest, exceptMapOk]
        · have hr : r.length ≤ fuel := by
            have := tryPlaceholder_length rest n sp r htp
            omega
          obtain ⟨-, hdec⟩ := tryPlaceholder_some rest n sp r htp
          simp only [htp, alookup]
          rw [ih r hr]
          cases sp <;>
            simp [hdec, spPart, exceptOkBind, exceptPure, List.append_assoc]
      · simp [hc, ih rest hrest, exceptMapOk]

theorem isWordChar_rbrace : isWordChar '}' = false := by decide

theorem isWordChar_colon : isWordChar ':' = false := by decide

theorem exceptMapMap {ε α β γ : Type} (f : α → β) (g : β → γ) (x : Except ε α) :
    (x.map f).map g = x.map fun a => g (f a) := by
  cases x <;> rfl

/-- The substitution result does not depend on the fuel, as long as there
is enough of it. -/
theorem pySubF_fuel (loc : Locale) (vals : List (String × Value)) :
    ∀ (fuel fuel' : Nat) (s : List Char), s.length ≤ fuel → s.length ≤ fuel' →
      MessageFormatter.pySubF loc vals fuel s = MessageFormatter.pySubF loc vals fuel' s := by
  intro fuel
  induction fuel with
  | zero =>
    intro fuel' s hs _
    have : s = [] := List.eq_nil_of_length_eq_zero (Nat.le_zero.mp hs)
    subst this
    cases fuel' <;> rfl
  | succ fuel ih =>
    intro fuel' s hs hs'
    match s with
    | [] => cases fuel' <;> rfl
    | c :: rest =>
      match fuel' with
      | 0 => exact absurd hs' (by simp)
      | fuel' + 1 =>
        have hrest : rest.length ≤ fuel := by simpa using Nat.le_of_succ_le_succ hs
        have hrest' : rest.length ≤ fuel' := by simpa using Nat.le_of_succ_le_succ hs'
        simp only [MessageFormatter.pySubF]
        by_cases hc : c = '{'
        · subst hc
          rcases htp : tryPlaceholder rest with _ | ⟨n, sp, r⟩
          · simp [htp, ih fuel' rest hrest hrest']
          · have hlen := tryPlaceholder_length rest n sp r htp
            have hr : r.length ≤ fuel := by omega
            have hr' : r.length ≤ fuel' := by omega
            simp [htp, ih fuel' r hr hr']
        · simp [hc, ih fuel' rest hrest hrest']

/-- A well-formed placeholder written at the head of the input is matched
exactly: the maximal word run is its name, the optional colon-spec (spec
non-empty and brace-free) is its spec, and scanning resumes after the
closing brace. -/
theorem tryPlaceholder_build (name : List Char) (sp : Option (List Char)) (rest : List Char)
    (hname : name ≠ []) (hword : ∀ c ∈ name, isWordChar c = true)
    (hsp : ∀ s, sp = some s → s ≠ [] ∧ ∀ c ∈ s, c ≠ '}') :
    tryPlaceholder (name ++ spPart sp ++ '}' :: rest) = some (name, sp, rest) := by
  cases sp with
  | none =>
    have htw : (name ++ spPart none ++ '}' :: rest).takeWhile isWordChar = name := by
      simp only [spPart, List.append_nil]
      rw [takeWhile_append_all _ _ _ hword]
      simp [List.takeWhile_cons, isWordChar_rbrace]
    have hdw : (name ++ spPart none ++ '}' :: rest).dropWhile isWordChar = '}' :: rest := by
      simp only [spPart, List.append_nil]
      rw [dropWhile_append_all _ _ _ hword]
      simp [List.dropWhile_cons, isWordChar_rbrace]
    unfold tryPlaceholder
    rw [htw, hdw, if_neg hname]
    dsimp only
    rw [if_pos rfl]
  | some s =>
    obtain ⟨hs_ne, hs_nb⟩ := hsp s rfl
    have hs_nb' : ∀ c ∈ s, (fun x => decide (x ≠ '}')) c = true := by
      intro c hc
      simpa using hs_nb c hc
    have hshape : name ++ spPart (some s) ++ '}' :: rest =
        name ++ ':' :: (s ++ '}' :: rest) := by
      simp [spPart]
    rw [hshape]
    have htw : (name ++ ':' :: (s ++ '}' :: rest)).takeWhile isWordChar = name := by
      rw [takeWhile_append_all _ _ _ hword]
      simp [List.takeWhile_cons, isWordChar_colon]
    have hdw : (name ++ ':' :: (s ++ '}' :: rest)).dropWhile isWordChar =
        ':' :: (s ++ '}' :: rest) := by
      rw [dropWhile_append_all _ _ _ hword]
      simp [List.dropWhile_cons, isWordChar_colon]
    have htw2 : (s ++ '}' :: rest).takeWhile (fun x => decide (x ≠ '}')) = s := by
      rw [takeWhile_append_all _ _ _ hs_nb']
      simp [List.takeWhile_cons]
    have hdw2 : (s ++ '}' :: rest).dropWhile (fun x => decide (x ≠ '}')) = '}' :: rest := by
      rw [dropWhile_append_all _ _ _ hs_nb']
      simp [List.dropWhile_cons]
    unfold tryPlaceholder
    rw [htw, hdw, if_neg hname]
    dsimp only
    rw [if_neg (show ¬(':' : Char) = '}' by decide), if_pos rfl, hdw2]
    dsimp only
    rw [if_pos rfl, htw2, if_neg hs_ne]

/-- A run of characters containing no `{` is copied to the output
unchanged; no match can start inside it. -/
theorem pySubF_skip_plain (loc : Locale) (vals : List (String × Value)) :
    ∀ (pre : List Char) (fuel : Nat) (s : List Char),
      (∀ c ∈ pre, c ≠ '{') → (pre ++ s).length ≤ fuel →
      MessageFormatter.pySubF loc vals fuel (pre ++ s) =
        (MessageFormatter.pySubF loc vals s.length s).map (pre ++ ·) := by
  intro pre
  induction pre with
  | nil =>
    intro fuel s _ hlen
    rw [List.nil_append] at hlen ⊢
    rw [pySubF_fuel loc vals fuel s.length s hlen (le_refl _)]
    cases MessageFormatter.pySubF loc vals s.length s with
    | error e => rfl
    | ok out => simp [exceptMapOk]
  | cons c pre' ih =>
    intro fuel s hpre hlen
    match fuel with
    | 0 => exact absurd hlen (by simp)
    | fuel + 1 =>
      have hlen' : (pre' ++ s).length ≤ fuel := by
        simp only [List.cons_append, List.length_cons] at hlen
        omega
      rw [List.cons_append]
      simp only [MessageFormatter.pySubF]
      rw [if_neg (hpre c (by simp))]
      rw [ih fuel s (fun x hx => hpre x (by simp [hx])) hlen']
      cases MessageFormatter.pySubF loc vals s.length s with
      | error e => rfl
      | ok out => simp [exceptMapOk]

/-- C7 (amended): for every value mapping, a placeholder whose name is
absent — preceded by arbitrary brace-free text, with or without a format
spec — is reproduced in the output character-for-character at its
position, scanning continuing after it (it is never removed, never
replaced by the empty string, and is itself never a source of error;
errors can only arrive from the substitution of other, bound
placeholders); with no bound values `format` is the identity on every
template; and a bound name elsewhere in the same template is still
substituted. -/
theorem C7_unmatched_left_verbatim :
    (∀ (loc : Locale) (vals : List (String × Value)) (pre : List Char) (name : String)
        (sp : Option (List Char)) (rest : List Char),
        (∀ c ∈ pre, c ≠ '{') →
        name.data ≠ [] →
        (∀ c ∈ name.data, isWordChar c = true) →
        (∀ s, sp = some s → s ≠ [] ∧ ∀ c ∈ s, c ≠ '}') →
        alookup name vals = none →
        MessageFormatter.format loc
            (String.mk (pre ++ '{' :: (name.data ++ spPart sp ++ '}' :: rest))) vals =
          (MessageFormatter.pySubF loc vals rest.length rest).map
            fun out => String.mk (pre ++ '{' :: (name.data ++ spPart sp ++ '}' :: out))) ∧
    (∀ (loc : Locale) (t : String), MessageFormatter.format loc t [] = .ok t) ∧
    MessageFormatter.format enLocale "{a} and {b}" [("b", .str "Y")] = .ok "{a} and Y" := by
  refine ⟨?_, ?_, rfl⟩
  · intro loc vals pre name sp rest hpre hne hword hsp hlook
    obtain ⟨nl⟩ := name
    have htry := tryPlaceholder_build nl sp rest hne hword hsp
    have hle : rest.length ≤ (nl ++ spPart sp ++ '}' :: rest).length := by
      simp only [List.length_append, List.length_cons]
      omega
    have hstep : MessageFormatter.pySubF loc vals
        ((nl ++ spPart sp ++ '}' :: rest).length + 1)
        ('{' :: (nl ++ spPart sp ++ '}' :: rest)) =
        (MessageFormatter.pySubF loc vals rest.length rest).map
          fun out => '{' :: (nl ++ spPart sp ++ '}' :: out) := by
      simp only [MessageFormatter.pySubF, htry]
      simp only [pySubF_fuel loc vals (nl ++ spPart sp ++ '}' :: rest).length
        rest.length rest hle (le_refl _)]
      cases hX : MessageFormatter.pySubF loc vals rest.length rest with
      | error e =>
        cases sp <;>
          simp [hlook, spPart, exceptErrorBind, exceptOkBind, exceptMapError]
      | ok out =>
        cases sp <;>
          simp [hlook, spPart, exceptOkBind, exceptPure, exceptMapOk, List.append_assoc]
    have hmain : MessageFormatter.pySubF loc vals
        ((pre ++ '{' :: (nl ++ spPart sp ++ '}' :: rest)).length)
        (pre ++ '{' :: (nl ++ spPart sp ++ '}' :: rest)) =
        (MessageFormatter.pySubF loc vals rest.length rest).map
          fun out => pre ++ '{' :: (nl ++ spPart sp ++ '}' :: out) := by
      rw [pySubF_skip_plain loc vals pre _ ('{' :: (nl ++ spPart sp ++ '}' :: rest))
        hpre (le_refl _)]
      rw [show ('{' :: (nl ++ spPart sp ++ '}' :: rest)).length =
          (nl ++ spPart sp ++ '}' :: rest).length + 1 from rfl]
      rw [hstep, exceptMapMap]
    simp only [MessageFormatter.format]
    rw [hmain, exceptMapMap]
  · intro loc t
    obtain ⟨l⟩ := t
    simp [MessageFormatter.format, pySubF_nil loc l.length l (le_refl _), exceptMapOk]

/-- Witness for C7's general clause: template `" {a:num}!"` with mapping
`b ↦ "Y"` — `a` is absent, so the whole placeholder survives verbatim. -/
theorem C7_unmatched_left_verbatim_witness :
    MessageFormatter.format enLocale
        (String.mk (" ".data ++ '{' :: ("a".data ++ spPart (some "num".data) ++ '}' :: "!".data)))
        [("b", .str "Y")] =
      (MessageFormatter.pySubF enLocale [("b", .str "Y")] ("!".data).length "!".data).map
        fun out => String.mk (" ".data ++ '{' :: ("a".data ++ spPart (some "num".data) ++ '}' :: out)) :=
  C7_unmatched_left_verbatim.1 enLocale [("b", .str "Y")] " ".data "a" (some "num".data)
    "!".data (by decide) (by decide) (by decide)
    (by intro s h; cases h; exact ⟨by decide, by decide⟩) (by decide)

/-- C7 counterexample: the claim as stated ("no error is raised" and the
absent-name placeholder "appears in the output") fails for a mapping that
binds another placeholder to a failing format spec: with `y ↦ 1`, the
template containing both the absent `a` and `y:decimal:abc` raises
`ValueError` (the C4 bug), and there is no output at all for the absent
placeholder to appear in. -/
theorem C7_absent_placeholder_error :
    MessageFormatter.format enLocale "{a} and {y:decimal:abc}" [("y", .int 1)] =
      .error "ValueError: invalid literal for int" ∧
    ¬∃ out : String,
        MessageFormatter.format enLocale "{a} and {y:decimal:abc}" [("y", .int 1)] =
          .ok out := by
  have herr : MessageFormatter.format enLocale "{a} and {y:decimal:abc}" [("y", .int 1)] =
      .error "ValueError: invalid literal for int" := rfl
  refine ⟨herr, ?_⟩
  rintro ⟨out, hout⟩
  exact Except.noConfusion (herr.symm.trans hout)

/-- C10: interpolation is single-pass: a bound value's text is inserted
verbatim and the output is never rescanned, even when that text is itself
placeholder-shaped and its name is bound in the same mapping. -/
theorem C10_single_pass :
    (∀ (loc : Locale) (vals : List (String × Value)) (name s : String),
        name.data ≠ [] →
        (∀ c ∈ name.data, isWordChar c = true) →
        alookup name vals = some (.str s) →
        MessageFormatter.format loc (String.mk ('{' :: name.data ++ ['}'])) vals = .ok s) ∧
    MessageFormatter.format enLocale "{a}" [("a", .str "{b}"), ("b", .str "X")] =
      .ok "{b}" := by
  constructor
  · intro loc vals name s hne hword hlook
    obtain ⟨nl⟩ := name
    obtain ⟨sl⟩ := s
    have hne' : nl ≠ [] := hne
    have hword' : ∀ c ∈ nl, isWordChar c = true := hword
    have htw : (nl ++ ['}']).takeWhile isWordChar = nl := by
      rw [takeWhile_append_all _ _ _ hword']
      simp [List.takeWhile_cons, isWordChar_rbrace]
    have hdw : (nl ++ ['}']).dropWhile isWordChar = ['}'] := by
      rw [dropWhile_append_all _ _ _ hword']
      simp [List.dropWhile_cons, isWordChar_rbrace]
    have htry : tryPlaceholder (nl ++ ['}']) = some (nl, none, []) := by
      unfold tryPlaceholder
      rw [htw, hdw]
      rw [if_neg hne']
      dsimp only
      rw [if_pos rfl]
    have hdata : (String.mk ('{' :: nl ++ ['}'])).data = '{' :: (nl ++ ['}']) := rfl
    have hlen : ('{' :: (nl ++ ['}'])).length = nl.length + 1 + 1 := by simp
    have hsub : MessageFormatter.pySubF loc vals (nl.length + 1 + 1) ('{' :: (nl ++ ['}'])) =
        .ok sl := by
      simp only [MessageFormatter.pySubF, htry]
      simp [hlook, pyStr, exceptOkBind, exceptPure, MessageFormatter.pySubF]
    simp only [MessageFormatter.format, hdata, hlen, List.cons_append, hsub, exceptMapOk]
  · rfl

/-- Witness for C10's general statement at the self-referential binding
`n ↦ "\x7bn\x7d"`. -/
theorem C10_single_pass_witness :
    MessageFormatter.format enLocale "{n}" [("n", .str "{n}")] = .ok "{n}" :=
  C10_single_pass.1 enLocale [("n", .str "{n}")] "n" "{n}"
    (by decide) (by decide) (by decide)

theorem alookup_isSome_iff (k : String) (l : List (String × α)) :
    (alookup k l).isSome ↔ k ∈ l.map Prod.fst := by
  induction l with
  | nil => simp [alookup]
  | cons p rest ih =>
    obtain ⟨a, b⟩ := p
    simp only [alookup, List.map_cons, List.mem_cons]
    by_cases h : a = k
    · subst h
      simp
    · rw [if_neg h, ih]
      constructor
      · exact fun hm => Or.inr hm
      · rintro (rfl | hm)
        · exact absurd rfl h
        · exact hm

theorem overwrite_keys (k : String) (v : α) (l : List (String × α)) :
    ((l.map fun p => if p.1 = k then (k, v) else p).map Prod.fst) = l.map Prod.fst := by
  induction l with
  | nil => rfl
  | cons p rest ih =>
    by_cases hp : p.1 = k <;> simp [hp, ih]

theorem ainsert_keys (k : String) (v : α) (l : List (String × α)) :
    (ainsert k v l).map Prod.fst =
      if (alookup k l).isSome then l.map Prod.fst else l.map Prod.fst ++ [k] := by
  unfold ainsert
  by_cases h : (alookup k l).isSome
  · rw [if_pos h, if_pos h, overwrite_keys]
  · rw [if_neg h, if_neg h]
    simp

theorem findSome?_cons_eq (f : α → Option β) (a : α) (l : List α) :
    (a :: l).findSome? f = ((f a).orElse fun _ => l.findSome? f) := by
  cases h : f a <;> simp [List.findSome?_cons, h]

theorem findSome?_append_eq (f : α → Option β) (l₁ l₂ : List α) :
    (l₁ ++ l₂).findSome? f = ((l₁.findSome? f).orElse fun _ => l₂.findSome? f) := by
  induction l₁ with
  | nil => simp
  | cons a rest ih =>
    rw [List.cons_append, findSome?_cons_eq, ih, findSome?_cons_eq f a rest]
    cases h : f a <;> simp

theorem findInChain_eq_findSome? (tr : Translator) (chain : List String)
    (key context : String) :
    tr.findInChain chain key context =
      chain.findSome? fun l => tr.tryLocale l key context := by
  induction chain with
  | nil => rfl
  | cons fb rest ih =>
    rw [findSome?_cons_eq]
    unfold Translator.findInChain
    cases h : tr.tryLocale fb key context <;> simp [h, ih]

/-- C2: `_find_message` equals the first hit over the search list —
requested locale, then its fallback chain in listed order, then the
default locale exactly when the requested locale differs from it —
unregistered locales contributing no hit; and in the A/B/D scenario
(`A` empty with chain `[B]`, default `D`, key in `B` and `D`) `t`
returns `B`'s text, not `D`'s. -/
theorem C2_find_message_order :
    (∀ (tr : Translator) (key locale context : String),
        tr.find_message key locale context =
          (locale :: (((alookup locale tr.fallback_chain).getD []) ++
              (if locale ≠ tr.default_locale then [tr.default_locale] else []))).findSome?
            fun l => tr.tryLocale l key context) ∧
    scenarioTranslator.t "greet" (some "A") "" [] = .ok "B text" ∧
    scenarioTranslator.t "greet" (some "D") "" [] = .ok "D text" := by
  refine ⟨?_, rfl, rfl⟩
  intro tr key locale context
  have hsingle : ∀ loc, ([loc].findSome? fun l => tr.tryLocale l key context) =
      tr.tryLocale loc key context := by
    intro loc
    cases h : tr.tryLocale loc key context <;> simp [List.findSome?_cons, h]
  rw [findSome?_cons_eq, findSome?_append_eq, ← findInChain_eq_findSome?]
  unfold Translator.find_message
  cases h1 : tr.tryLocale locale key context
  · cases h2 : tr.findInChain ((alookup locale tr.fallback_chain).getD []) key context
    · by_cases h3 : locale = tr.default_locale
      · simp [h2, h3]
      · simp [h2, h3, hsingle]
    · simp [h2]
  · simp

theorem runOps_keys (d : String) (ops : List TranslatorOp) :
    (runOps d ops).locales.map Prod.fst = (runOps d ops).catalogs.map Prod.fst ∧
    (runOps d ops).locales.map Prod.fst = (runOps d ops).formatters.map Prod.fst ∧
    ((runOps d ops).locales.map Prod.fst).Nodup ∧
    "en" ∈ (runOps d ops).catalogs.map Prod.fst := by
  suffices h : ∀ (ops : List TranslatorOp) (tr : Translator),
      (tr.locales.map Prod.fst = tr.catalogs.map Prod.fst ∧
        tr.locales.map Prod.fst = tr.formatters.map Prod.fst ∧
        (tr.locales.map Prod.fst).Nodup ∧
        "en" ∈ tr.catalogs.map Prod.fst) →
      ((ops.foldl applyOp tr).locales.map Prod.fst =
          (ops.foldl applyOp tr).catalogs.map Prod.fst ∧
        (ops.foldl applyOp tr).locales.map Prod.fst =
          (ops.foldl applyOp tr).formatters.map Prod.fst ∧
        ((ops.foldl applyOp tr).locales.map Prod.fst).Nodup ∧
        "en" ∈ (ops.foldl applyOp tr).catalogs.map Prod.fst) by
    refine h ops (Translator.init d) ?_
    refine ⟨rfl, rfl, by simp [Translator.init, Translator.add_locale, ainsert, alookup, enLocale], ?_⟩
    simp [Translator.init, Translator.add_locale, ainsert, alookup, enLocale]
  intro ops
  induction ops with
  | nil => exact fun tr h => h
  | cons op rest ih =>
    intro tr h
    obtain ⟨h1, h2, h3, h4⟩ := h
    refine ih (applyOp tr op) ?_
    cases op with
    | addLocale l =>
      have hiffc : (alookup l.code tr.catalogs).isSome = (alookup l.code tr.locales).isSome := by
        rw [Bool.eq_iff_iff, alookup_isSome_iff, alookup_isSome_iff, h1]
      have hifff : (alookup l.code tr.formatters).isSome = (alookup l.code tr.locales).isSome := by
        rw [Bool.eq_iff_iff, alookup_isSome_iff, alookup_isSome_iff, h2]
      simp only [applyOp, Translator.add_locale, ainsert_keys, hiffc, hifff]
      by_cases hreg : (alookup l.code tr.locales).isSome = true
      · simp only [hreg, if_true]
        exact ⟨h1, h2, h3, h4⟩
      · rw [Bool.not_eq_true] at hreg
        simp only [hreg, Bool.false_eq_true, if_false]
        have hnm : l.code ∉ tr.locales.map Prod.fst := by
          rw [← alookup_isSome_iff]
          simp [hreg]
        refine ⟨by rw [h1], by rw [h2], ?_, List.mem_append_left _ h4⟩
        rw [List.nodup_append]
        refine ⟨h3, List.nodup_singleton _, ?_⟩
        intro a ha hac
        rw [List.mem_singleton] at hac
        exact hnm (hac ▸ ha)
    | setLocale c =>
      simp only [applyOp, Translator.set_locale]
      split <;> exact ⟨h1, h2, h3, h4⟩
    | setFallbackChain l fbs =>
      exact ⟨h1, h2, h3, h4⟩
    | loadMessages l msgs =>
      simp only [applyOp, Translator.load_messages]
      cases hc : alookup l tr.catalogs with
      | none => exact ⟨h1, h2, h3, h4⟩
      | some cat =>
        have hs : (alookup l tr.catalogs).isSome := by simp [hc]
        refine ⟨?_, h2, h3, ?_⟩
        · simpa [ainsert_keys, hs] using h1
        · simpa [ainsert_keys, hs] using h4

/-- C3 (amended): after any operation sequence from any construction, each
registered locale identifier has exactly one `Locale`, one
`MessageCatalog` and one formatter (the three dicts carry duplicate-free,
mutually corresponding key sets), and the locale `"en"` — which
construction registers regardless of the requested default — always has a
catalog; the default locale has a catalog exactly when it is registered. -/
theorem C3_registry_invariant (d : String) (ops : List TranslatorOp) :
    ((runOps d ops).locales.map Prod.fst).Nodup ∧
    ((runOps d ops).catalogs.map Prod.fst).Nodup ∧
    ((runOps d ops).formatters.map Prod.fst).Nodup ∧
    (∀ code, (alookup code (runOps d ops).locales).isSome ↔
        (alookup code (runOps d ops).catalogs).isSome) ∧
    (∀ code, (alookup code (runOps d ops).locales).isSome ↔
        (alookup code (runOps d ops).formatters).isSome) ∧
    (alookup "en" (runOps d ops).catalogs).isSome := by
  obtain ⟨h1, h2, h3, h4⟩ := runOps_keys d ops
  refine ⟨h3, h1 ▸ h3, h2 ▸ h3, ?_, ?_, (alookup_isSome_iff _ _).mpr h4⟩
  · intro code
    rw [alookup_isSome_iff, alookup_isSome_iff, h1]
  · intro code
    rw [alookup_isSome_iff, alookup_isSome_iff, h2]

/-- C3 counterexample: constructing with `default_locale = "fr"` leaves the
default locale without a catalog (only `"en"` is registered), refuting the
claim that the default locale always has one. -/
theorem C3_default_without_catalog :
    (Translator.init "fr").default_locale = "fr" ∧
    alookup (Translator.init "fr").default_locale (Translator.init "fr").catalogs = none :=
  ⟨rfl, rfl⟩

/-- C4: evaluation of the code at the failing input.  `decimal:abc` is not
one of the recognized format specs (it is not `decimal:<N>` with `N` a
non-negative integer), so the claim requires the value's default string
representation; the code instead runs `int("abc")` inside the
`spec.startswith("decimal:")` branch and raises `ValueError`.  A spec not
beginning `decimal:` does fall back to `str(value)` as claimed. -/
theorem C4_decimal_spec_raises :
    MessageFormatter.format enLocale "{x:decimal:abc}" [("x", .int 1)] =
      .error "ValueError: invalid literal for int" ∧
    MessageFormatter.format enLocale "{x:weird}" [("x", .int 1)] = .ok "1" :=
  ⟨rfl, rfl⟩

/-- Witness for C6 at a concrete two-entry catalog. -/
theorem C6_export_import_roundtrip_witness :
    MessageCatalog.to_dict
        ((MessageCatalog.load_data { locale := enLocale }
          ((sampleCatalog.to_dict).map fun p => (p.1, MessageCatalog.exportEntry p.2))).1) =
      sampleCatalog.to_dict :=
  C6_export_import_roundtrip enLocale sampleCatalog (by decide) (by decide) (by decide)

theorem replaceStrF_fuel (pat rep : List Char) :
    ∀ (fuel fuel' : Nat) (s : List Char), s.length ≤ fuel → s.length ≤ fuel' →
      replaceStrF pat rep fuel s = replaceStrF pat rep fuel' s := by
  intro fuel
  induction fuel with
  | zero =>
    intro fuel' s hs _
    have : s = [] := List.eq_nil_of_length_eq_zero (Nat.le_zero.mp hs)
    subst this
    cases fuel' <;> rfl
  | succ fuel ih =>
    intro fuel' s hs hs'
    match s with
    | [] => cases fuel' <;> rfl
    | c :: rest =>
      match fuel' with
      | 0 => exact absurd hs' (by simp)
      | fuel' + 1 =>
        simp only [replaceStrF]
        by_cases hm : pat ≠ [] ∧ pat.isPrefixOf (c :: rest)
        · rw [if_pos hm, if_pos hm]
          have hlen : ((c :: rest).drop pat.length).length ≤ rest.length := by
            have hp : 1 ≤ pat.length :=
              Nat.one_le_iff_ne_zero.mpr (by simpa using hm.1)
            simp only [List.length_drop, List.length_cons]
            omega
          rw [ih fuel' _ (le_trans hlen (by simpa using Nat.le_of_succ_le_succ hs))
            (le_trans hlen (by simpa using Nat.le_of_succ_le_succ hs'))]
        · rw [if_neg hm, if_neg hm]
          rw [ih fuel' rest (by simpa using Nat.le_of_succ_le_succ hs)
            (by simpa using Nat.le_of_succ_le_succ hs')]

theorem isPrefixOf_append_self (p s : List Char) : p.isPrefixOf (p ++ s) = true := by
  induction p with
  | nil => simp [List.isPrefixOf]
  | cons a as ih => simp [List.isPrefixOf, ih]

theorem replaceStr_cons_no_match (pat rep : List Char) (c : Char) (s : List Char)
    (hnm : ¬(pat ≠ [] ∧ pat.isPrefixOf (c :: s))) :
    replaceStr pat rep (c :: s) = c :: replaceStr pat rep s := by
  unfold replaceStr
  simp only [List.length_cons, replaceStrF, if_neg hnm]

theorem replaceStr_match_head (pat rep s : List Char) (hne : pat ≠ []) :
    replaceStr pat rep (pat ++ s) = rep ++ replaceStr pat rep s := by
  match pat with
  | [] => exact absurd rfl hne
  | p0 :: pat1 =>
    unfold replaceStr
    rw [List.cons_append]
    have hlen : ((p0 :: pat1) ++ s).length = (pat1 ++ s).length + 1 := by simp
    simp only [List.cons_append] at hlen
    rw [hlen]
    simp only [replaceStrF]
    rw [if_pos ⟨hne, by rw [← List.cons_append]; exact isPrefixOf_append_self _ s⟩]
    have hdrop : (p0 :: (pat1 ++ s)).drop (p0 :: pat1).length = s := by
      rw [← List.cons_append]
      exact List.drop_left _ _
    rw [hdrop]
    rw [replaceStrF_fuel (p0 :: pat1) rep (pat1 ++ s).length s.length s (by simp) (le_refl _)]

theorem thousandsToken_head : thousandsToken = '_' :: "_THOUSANDS__".data := rfl

theorem replaceStr_skip_block (rep b t : List Char) (hb : ∀ x ∈ b, x ≠ '_') :
    replaceStr thousandsToken rep (b ++ t) = b ++ replaceStr thousandsToken rep t := by
  induction b with
  | nil => simp
  | cons x b' ih =>
    have hx : x ≠ '_' := hb x (by simp)
    rw [List.cons_append, replaceStr_cons_no_match]
    · rw [ih fun y hy => hb y (by simp [hy])]
      simp
    · rintro ⟨-, hpre⟩
      rw [thousandsToken_head] at hpre
      simp only [List.isPrefixOf, Bool.and_eq_true, beq_iff_eq] at hpre
      exact hx hpre.1.symm

theorem flatMap_congr_left (l : List α) (f g : α → List β)
    (h : ∀ a ∈ l, f a = g a) : l.flatMap f = l.flatMap g := by
  induction l with
  | nil => rfl
  | cons a rest ih =>
    rw [List.flatMap_cons, List.flatMap_cons, h a (by simp),
      ih fun x hx => h x (by simp [hx])]

theorem flatMap_comp (l : List α) (f : α → List β) (g : β → List γ) :
    (l.flatMap f).flatMap g = l.flatMap fun a => (f a).flatMap g := by
  induction l with
  | nil => rfl
  | cons a rest ih => simp [List.flatMap_cons, List.flatMap_append, ih]

theorem replaceStr_singleChar (ch : Char) (rep : List Char) (s : List Char) :
    replaceStr [ch] rep s = s.flatMap fun x => if x = ch then rep else [x] := by
  induction s with
  | nil => rfl
  | cons x rest ih =>
    by_cases hx : x = ch
    · subst hx
      rw [show (x :: rest : List Char) = [x] ++ rest from rfl,
        replaceStr_match_head _ _ _ (by simp), ih]
      simp
    · rw [replaceStr_cons_no_match, ih]
      · simp [hx]
      · rintro ⟨-, hpre⟩
        simp only [List.isPrefixOf, Bool.and_eq_true, beq_iff_eq] at hpre
        exact hx hpre.1.symm

theorem replaceStr_token_blocks (thou : List Char) (f : Char → List Char) :
    ∀ s : List Char, (∀ c ∈ s, f c = thousandsToken ∨ ∀ x ∈ f c, x ≠ '_') →
      replaceStr thousandsToken thou (s.flatMap f) =
        s.flatMap fun c => if f c = thousandsToken then thou else f c := by
  intro s
  induction s with
  | nil => intro _; rfl
  | cons c rest ih =>
    intro hf
    rw [List.flatMap_cons, List.flatMap_cons]
    rcases hf c (by simp) with heq | hb
    · rw [heq, replaceStr_match_head _ _ _ (by rw [thousandsToken_head]; simp),
        ih fun x hx => hf x (by simp [hx])]
      simp
    · have hne : f c ≠ thousandsToken := by
        intro h
        exact hb '_' (h ▸ (by rw [thousandsToken_head]; simp)) rfl
      rw [replaceStr_skip_block _ _ _ hb, if_neg hne,
        ih fun x hx => hf x (by simp [hx])]

theorem flatMap_id_of_no_dot (dec : List Char) (l : List Char)
    (h : ∀ x ∈ l, x ≠ '.') :
    (l.flatMap fun y => if y = '.' then dec else [y]) = l := by
  induction l with
  | nil => rfl
  | cons x rest ih =>
    rw [List.flatMap_cons, if_neg (h x (by simp)), ih fun y hy => h y (by simp [hy])]
    rfl

/-- The three sequential `replace` passes equal the simultaneous pointwise
substitution, for inputs free of `_` and a decimal separator free of `_`
(so the sentinel cannot collide) — in particular even when the thousands
separator is `.` or the decimal separator is `,`. -/
theorem sepSubst_eq_pointwise (loc : Locale) (s : List Char)
    (hs : ∀ x ∈ s, x ≠ '_')
    (hdec : ∀ x ∈ loc.decimal_separator.data, x ≠ '_') :
    MessageFormatter.sepSubst loc s = s.flatMap fun c =>
      if c = ',' then loc.thousands_separator.data
      else if c = '.' then loc.decimal_separator.data
      else [c] := by
  unfold MessageFormatter.sepSubst
  rw [replaceStr_singleChar, replaceStr_singleChar, flatMap_comp]
  have hpoint : ∀ x : Char,
      ((if x = ',' then thousandsToken else [x]).flatMap fun y =>
        if y = '.' then loc.decimal_separator.data else [y]) =
      if x = ',' then thousandsToken
      else if x = '.' then loc.decimal_separator.data
      else [x] := by
    intro x
    by_cases hx : x = ','
    · rw [if_pos hx, if_pos hx]
      exact flatMap_id_of_no_dot _ _ (by decide)
    · rw [if_neg hx, if_neg hx]
      by_cases hx2 : x = '.'
      · simp [hx2]
      · simp [hx2]
  rw [flatMap_congr_left _ _ _ fun a _ => hpoint a]
  rw [replaceStr_token_blocks _ _ s ?blocks]
  case blocks =>
    intro c hc
    by_cases h1 : c = ','
    · exact Or.inl (by rw [if_pos h1])
    · refine Or.inr ?_
      rw [if_neg h1]
      by_cases h2 : c = '.'
      · rw [if_pos h2]
        exact hdec
      · rw [if_neg h2]
        intro x hx
        rw [List.mem_singleton] at hx
        exact hx ▸ hs c hc
  refine flatMap_congr_left _ _ _ ?_
  intro c hc
  by_cases h1 : c = ','
  · subst h1
    simp
  · by_cases h2 : c = '.'
    · subst h2
      have hdt : loc.decimal_separator.data ≠ thousandsToken := fun h =>
        hdec '_' (h ▸ (by rw [thousandsToken_head]; simp)) rfl
      simp [hdt]
    · have hct : [c] ≠ thousandsToken := fun h => by
        simpa [thousandsToken] using congrArg List.length h
      simp [h1, h2, hct]

theorem digitChar_isDigit : ∀ m : Nat, m < 10 → (Nat.digitChar m).isDigit = true := by
  decide

theorem natReprF_digits : ∀ (fuel n : Nat), ∀ c ∈ natReprF fuel n, c.isDigit = true := by
  intro fuel
  induction fuel with
  | zero =>
    intro n c hc
    simp [natReprF] at hc
  | succ fuel ih =>
    intro n c hc
    rw [natReprF] at hc
    by_cases h : n < 10
    · rw [if_pos h, List.mem_singleton] at hc
      exact hc ▸ digitChar_isDigit n h
    · rw [if_neg h] at hc
      rcases List.mem_append.mp hc with h1 | h2
      · exact ih _ c h1
      · rw [List.mem_singleton] at h2
        exact h2 ▸ digitChar_isDigit _ (Nat.mod_lt _ (by norm_num))

theorem natDigits_digits : ∀ (d n : Nat), ∀ c ∈ natDigits n d, c.isDigit = true := by
  intro d
  induction d with
  | zero =>
    intro n c hc
    simp [natDigits] at hc
  | succ d ih =>
    intro n c hc
    rw [natDigits] at hc
    rcases List.mem_append.mp hc with h1 | h2
    · exact ih _ c h1
    · rw [List.mem_singleton] at h2
      exact h2 ▸ digitChar_isDigit _ (Nat.mod_lt _ (by norm_num))

theorem natDigits_length : ∀ (d n : Nat), (natDigits n d).length = d := by
  intro d
  induction d with
  | zero => intro n; rfl
  | succ d ih => intro n; simp [natDigits, ih]

theorem group3R_mem : ∀ (l : List Char), ∀ c ∈ group3R l, c ∈ l ∨ c = ',' := by
  have key : ∀ (n : Nat) (l : List Char), l.length ≤ n → ∀ c ∈ group3R l, c ∈ l ∨ c = ',' := by
    intro n
    induction n with
    | zero =>
      intro l hl c hc
      have : l = [] := List.eq_nil_of_length_eq_zero (Nat.le_zero.mp hl)
      subst this
      simp [group3R] at hc
    | succ n ih =>
      intro l hl c hc
      match l with
      | [] => simp [group3R] at hc
      | [a] => exact Or.inl (by simpa [group3R] using hc)
      | [a, b] => exact Or.inl (by simpa [group3R] using hc)
      | [a, b, c'] => exact Or.inl (by simpa [group3R] using hc)
      | a :: b :: c' :: d :: rest =>
        rw [show group3R (a :: b :: c' :: d :: rest) =
            a :: b :: c' :: ',' :: group3R (d :: rest) from rfl] at hc
        simp only [List.mem_cons] at hc ⊢
        rcases hc with h | h | h | h | h
        · exact Or.inl (Or.inl h)
        · exact Or.inl (Or.inr (Or.inl h))
        · exact Or.inl (Or.inr (Or.inr (Or.inl h)))
        · exact Or.inr h
        · have hlen : (d :: rest).length ≤ n := by
            simp only [List.length_cons] at hl ⊢
            omega
          rcases ih (d :: rest) hlen c h with h2 | h2
          · rcases List.mem_cons.mp h2 with h3 | h3
            · exact Or.inl (Or.inr (Or.inr (Or.inr (Or.inl h3))))
            · exact Or.inl (Or.inr (Or.inr (Or.inr (Or.inr h3))))
          · exact Or.inr h2
  exact fun l => key l.length l (le_refl _)

theorem group3_mem (l : List Char) (c : Char) (hc : c ∈ group3 l) : c ∈ l ∨ c = ',' := by
  unfold group3 at hc
  rw [List.mem_reverse] at hc
  rcases group3R_mem _ c hc with h | h
  · exact Or.inl (List.mem_reverse.mp h)
  · exact Or.inr h

theorem renderCommaFixed_no_underscore (q : ℚ) (d : Nat) :
    ∀ c ∈ renderCommaFixed q d, c ≠ '_' := by
  intro c hc
  unfold renderCommaFixed at hc
  rcases List.mem_append.mp hc with hc1 | hfp
  · rcases List.mem_append.mp hc1 with hsgn | hip
    · by_cases hq : q < 0
      · rw [if_pos hq, List.mem_singleton] at hsgn
        subst hsgn
        decide
      · rw [if_neg hq] at hsgn
        simp at hsgn
    · rcases group3_mem _ c hip with h2 | h2
      · have hd := natReprF_digits _ _ c h2
        intro he
        subst he
        exact absurd hd (by decide)
      · subst h2
        decide
  · by_cases hd : d = 0
    · rw [if_pos hd] at hfp
      simp at hfp
    · rw [if_neg hd] at hfp
      rcases List.mem_cons.mp hfp with h2 | h2
      · subst h2
        decide
      · have hdd := natDigits_digits _ _ c h2
        intro he
        subst he
        exact absurd hdd (by decide)

theorem isDigit_ne_dot {c : Char} (h : c.isDigit = true) : c ≠ '.' := by
  intro he
  subst he
  exact absurd h (by decide)

/-- C8 (amended): for every float value and every non-negative `decimals`,
`format_number` equals the simultaneous pointwise substitution of the
locale separators into the grouped fixed-point rendering — the three
sequential `replace` passes cannot corrupt each other as long as the
decimal separator does not contain the sentinel character `_` (so, in
particular, when the thousands separator is `.` and the decimal separator
is `,`) — and that rendering carries exactly `decimals` fractional digits
after the single decimal point; the `es` scenario formats `1234.5` with
one decimal as `"1.234,5"`.  For int values `decimals` is ignored
(see the counterexample theorem). -/
theorem C8_format_number_float :
    (∀ (loc : Locale) (q : ℚ) (d : Nat),
        (∀ x ∈ loc.decimal_separator.data, x ≠ '_') →
        (MessageFormatter.format_number loc (.float q) (d : Int) =
          .ok (String.mk ((renderCommaFixed q d).flatMap fun c =>
            if c = ',' then loc.thousands_separator.data
            else if c = '.' then loc.decimal_separator.data
            else [c])) ∧
        (0 < d → ∃ ip fr, renderCommaFixed q d = ip ++ '.' :: fr ∧ fr.length = d ∧
          (∀ c ∈ fr, c.isDigit = true) ∧ ∀ c ∈ ip, c ≠ '.'))) ∧
    MessageFormatter.format_number esLocale (.float (1234.5 : ℚ)) 1 = .ok "1.234,5" := by
  constructor
  · intro loc q d hdec
    constructor
    · unfold MessageFormatter.format_number
      dsimp only
      rw [if_neg (by exact not_lt.mpr (Int.natCast_nonneg d)), Int.toNat_natCast]
      rw [sepSubst_eq_pointwise loc _ (renderCommaFixed_no_underscore q d) hdec]
    · intro hd
      refine ⟨(if q < 0 then ['-'] else []) ++
          group3 (natRepr ((pyRound (|q| * (10 : ℚ) ^ d)).toNat / 10 ^ d)),
        natDigits ((pyRound (|q| * (10 : ℚ) ^ d)).toNat % 10 ^ d) d, ?_, natDigits_length d _,
        natDigits_digits d _, ?_⟩
      · unfold renderCommaFixed
        rw [if_neg (Nat.pos_iff_ne_zero.mp hd), List.append_assoc]
      · intro c hc
        rcases List.mem_append.mp hc with hsgn | hip
        · by_cases hq : q < 0
          · rw [if_pos hq, List.mem_singleton] at hsgn
            subst hsgn
            decide
          · rw [if_neg hq] at hsgn
            simp at hsgn
        · rcases group3_mem _ c hip with h2 | h2
          · exact isDigit_ne_dot (natReprF_digits _ _ c h2)
          · subst h2
            decide
  · have hscale : |(1234.5 : ℚ)| * (10 : ℚ) ^ (1 : ℕ) = 12345 := by
      rw [abs_of_pos (by norm_num)]
      norm_num
    have hf : (⌊(12345 : ℚ)⌋ : Int) = 12345 := by norm_num
    have hround : pyRound (|(1234.5 : ℚ)| * (10 : ℚ) ^ (1 : ℕ)) = 12345 := by
      rw [hscale]
      unfold pyRound
      rw [hf]
      rw [if_pos (by norm_num)]
    have hrender : renderCommaFixed (1234.5 : ℚ) 1 = "1,234.5".data := by
      unfold renderCommaFixed
      rw [hround, if_neg (by norm_num : ¬(1234.5 : ℚ) < 0)]
      rfl
    unfold MessageFormatter.format_number
    dsimp only
    rw [if_neg (by norm_num), show ((1 : Int).toNat) = (1 : Nat) from rfl, hrender]
    rfl

/-- C8 counterexample: for an int value `format_number` ignores the
`decimals` argument — `format_number(1234, 1)` in the `es` locale yields
`"1.234"`, which contains no decimal separator `,` at all, instead of the
one fractional digit the claim requires. -/
theorem C8_int_ignores_decimals :
    MessageFormatter.format_number esLocale (.int 1234) 1 = .ok "1.234" ∧
    ∀ c ∈ ("1.234" : String).data, c ≠ ',' :=
  ⟨rfl, by decide⟩

/-- C9 (amended): for every float value `format_currency` formats the
absolute value as a decimal with 2 places into the locale's currency
layout at `{symbol}` and `{amount}`, and then — exactly when the original
value was negative — prefixes a literal `-` to the whole formatted string:
the negative case is `-` prepended to the corresponding non-negative case,
and with layout `"{symbol}{amount}"` and symbol `"€"`,
`format_currency(-12.3)` is `"-€12.30"` while `format_currency(12.3)` is
`"€12.30"`.  For int values the 2 decimal places are dropped (see the
counterexample theorem). -/
theorem C9_format_currency_sign :
    (∀ (loc : Locale) (q : ℚ) (symbol : Option String), q < 0 →
        MessageFormatter.format_currency loc (.float q) symbol =
          (MessageFormatter.format_currency loc (.float (-q)) symbol).map ("-" ++ ·)) ∧
    MessageFormatter.format_currency euroLocale (.float (-12.3 : ℚ)) none = .ok "-€12.30" ∧
    MessageFormatter.format_currency euroLocale (.float (12.3 : ℚ)) none = .ok "€12.30" := by
  have hamount : MessageFormatter.format_decimal euroLocale (.float (12.3 : ℚ)) 2 =
      .ok "12.30" := by
    unfold MessageFormatter.format_decimal MessageFormatter.format_number
    dsimp only
    rw [if_neg (by norm_num)]
    have hscale : |(12.3 : ℚ)| * (10 : ℚ) ^ (2 : ℕ) = 1230 := by
      rw [abs_of_pos (by norm_num)]
      norm_num
    have hround : pyRound (|(12.3 : ℚ)| * (10 : ℚ) ^ (2 : ℕ)) = 1230 := by
      rw [hscale]
      unfold pyRound
      rw [show (⌊(1230 : ℚ)⌋ : Int) = 1230 from by norm_num]
      rw [if_pos (by norm_num)]
    have hrender : renderCommaFixed (12.3 : ℚ) 2 = "12.30".data := by
      unfold renderCommaFixed
      rw [hround, if_neg (by norm_num : ¬(12.3 : ℚ) < 0)]
      rfl
    rw [show ((2 : Int).toNat) = (2 : Nat) from rfl, hrender]
    rfl
  refine ⟨?_, ?_, ?_⟩
  · intro loc q symbol hq
    have key : ∀ (X : Except String String) (g : String → Except String (List Char)),
        (X >>= fun amount => (fun a => ("-" ++ String.mk a : String)) <$> g amount) =
          Except.map (fun s => "-" ++ s)
            (X >>= fun amount => (fun a => String.mk a) <$> g amount) := by
      intro X g
      cases X with
      | error e => rfl
      | ok amount =>
        rw [exceptOkBind, exceptOkBind]
        cases g amount <;> rfl
    have habs : PyNum.abs (.float q) = PyNum.abs (.float (-q)) := by
      dsimp [PyNum.abs]
      rw [abs_neg]
    have hneg : PyNum.isNeg (.float q) = true := by
      simp [PyNum.isNeg]
      exact hq
    have hpos : PyNum.isNeg (.float (-q)) = false := by
      simp [PyNum.isNeg]
      linarith
    unfold MessageFormatter.format_currency
    rw [habs]
    simp only [hneg, hpos, Bool.false_eq_true, if_true, if_false, reduceIte]
    exact key _ _
  · have habs : PyNum.abs (.float (-12.3 : ℚ)) = PyNum.float (12.3 : ℚ) := by
      dsimp [PyNum.abs]
      rw [show |(-12.3 : ℚ)| = (12.3 : ℚ) from by
        rw [abs_neg, abs_of_pos (by norm_num)]]
    have hneg : PyNum.isNeg (.float (-12.3 : ℚ)) = true := by
      simp [PyNum.isNeg]
      norm_num
    unfold MessageFormatter.format_currency
    rw [habs]
    dsimp only
    rw [hamount]
    simp only [exceptOkBind, hneg]
    rfl
  · have habs : PyNum.abs (.float (12.3 : ℚ)) = PyNum.float (12.3 : ℚ) := by
      dsimp [PyNum.abs]
      rw [abs_of_pos (by norm_num)]
    have hpos : PyNum.isNeg (.float (12.3 : ℚ)) = false := by
      simp [PyNum.isNeg]
      norm_num
    unfold MessageFormatter.format_currency
    rw [habs]
    dsimp only
    rw [hamount]
    simp only [exceptOkBind, hpos]
    rfl

/-- C9 counterexample: for an int value the amount goes through
`format_number`'s int branch, which drops the requested 2 decimal places:
`format_currency(-5)` yields `"-$5"`, not `"-$5.00"`. -/
theorem C9_int_drops_places :
    MessageFormatter.format_currency enLocale (.int (-5)) none = .ok "-$5" ∧
    ("-$5" : String) ≠ "-$5.00" :=
  ⟨rfl, by decide⟩

/-- Witness for C9's sign clause at the scenario value. -/
theorem C9_format_currency_sign_witness :
    MessageFormatter.format_currency euroLocale (.float (-12.3 : ℚ)) none =
      (MessageFormatter.format_currency euroLocale (.float (-(-12.3 : ℚ))) none).map
        ("-" ++ ·) :=
  C9_format_currency_sign.1 euroLocale (-12.3 : ℚ) none (by norm_num)

/-- Witness for C8 at the scenario input. -/
theorem C8_format_number_float_witness :
    ∃ ip fr, renderCommaFixed (1234.5 : ℚ) 1 = ip ++ '.' :: fr ∧ fr.length = 1 ∧
      (∀ c ∈ fr, c.isDigit = true) ∧ ∀ c ∈ ip, c ≠ '.' :=
  (C8_format_number_float.1 esLocale (1234.5 : ℚ) 1 (by decide)).2 (by decide)

end RoadLocale
